import Mathlib

/-!
Verification of the sign-language desktop application core
(`desktop_app/deaf_mode.py`, `desktop_app/gemini_service.py`,
`desktop_app/config.py`).

Python strings are embedded as lists of Unicode code points (`List Nat`);
the per-character case mappings model Python's `str.lower`/`str.upper`
on the ASCII range, which covers all texts the program manipulates.
Floats (the classifier confidences) are embedded as rationals.
-/

set_option autoImplicit false

/-- PyStr embeds a Python string as its list of Unicode code points. -/
abbrev PyStr := List Nat

/-- strC converts a Lean string literal into its code-point embedding. -/
def strC (s : String) : PyStr := s.data.map Char.toNat

/-- isSpace models Python's whitespace test for `str.split()` / `str.strip()`
(ASCII space and the control whitespace range TAB..CR). -/
def isSpace (c : Nat) : Bool := c = 32 || (9 ≤ c && c ≤ 13)

/-- pyCharLower models Python's per-character `str.lower` on ASCII. -/
def pyCharLower (c : Nat) : Nat := if 65 ≤ c ∧ c ≤ 90 then c + 32 else c

/-- pyCharUpper models Python's per-character `str.upper` on ASCII. -/
def pyCharUpper (c : Nat) : Nat := if 97 ≤ c ∧ c ≤ 122 then c - 32 else c

/-- pyLower models Python's `str.lower`. -/
def pyLower (s : PyStr) : PyStr := s.map pyCharLower

/-- pyUpper models Python's `str.upper`. -/
def pyUpper (s : PyStr) : PyStr := s.map pyCharUpper

/-- pyStrip models Python's `str.strip()`: drop whitespace from both ends. -/
def pyStrip (s : PyStr) : PyStr :=
  ((s.dropWhile isSpace).reverse.dropWhile isSpace).reverse

/-- pySplitAux accumulates the current (reversed) token while scanning;
tokens are flushed at whitespace boundaries and at the end of input. -/
def pySplitAux : List Nat → List Nat → List PyStr
  | [], cur => if cur = [] then [] else [cur.reverse]
  | c :: rest, cur =>
    if isSpace c then
      if cur = [] then pySplitAux rest []
      else cur.reverse :: pySplitAux rest []
    else pySplitAux rest (c :: cur)

/-- pySplit models Python's `str.split()` with no argument: split on runs of
whitespace, discarding empty tokens. -/
def pySplit (s : PyStr) : List PyStr := pySplitAux s []

/-- pyJoin models Python's `sep.join(parts)`. -/
def pyJoin (sep : PyStr) : List PyStr → PyStr
  | [] => []
  | [s] => s
  | s :: rest => s ++ sep ++ pyJoin sep rest

/-- pyReplaceChar models Python's `str.replace(old, new)` for single
characters. -/
def pyReplaceChar (old new : Nat) (s : PyStr) : PyStr :=
  s.map (fun c => if c = old then new else c)

/-- containsSub models Python's substring test `needle in hay`. -/
def containsSub (needle hay : PyStr) : Bool :=
  hay.tails.any (fun t => needle.isPrefixOf t)

/-! Configuration constants, from `desktop_app/config.py` (class `Config`). -/

/-- START_STREAK from `config.py`: consecutive present frames needed to
start recording. -/
def START_STREAK : Nat := 4

/-- END_STREAK from `config.py`: consecutive absent frames needed to end
recording. -/
def END_STREAK : Nat := 6

/-- MIN_SIGN_FRAMES from `config.py`: minimum buffer length for
classification. -/
def MIN_SIGN_FRAMES : Nat := 12

/-- MAX_SIGN_FRAMES from `config.py`: hard cap on the recording buffer. -/
def MAX_SIGN_FRAMES : Nat := 96

/-- MIN_CONFIDENCE from `config.py` (0.4), as an exact rational. -/
def MIN_CONFIDENCE : ℚ := 4 / 10

/-! The gesture-segmentation finite-state machine, from
`DeafModeWindow.process_fsm` in `desktop_app/deaf_mode.py`.
Frames carry an opaque landmark payload `α` and a presence flag. -/

/-- SegState is the FSM state: `self.IDLE, self.RECORDING = 0, 1`. -/
inductive SegState where
  | idle
  | recording
deriving DecidableEq, Repr

/-- FSM bundles the mutable segmentation fields of `DeafModeWindow`:
`self.state`, `self.present_streak`, `self.absent_streak`,
`self.seq_buffer`. -/
structure FSM (α : Type) where
  state : SegState
  present_streak : Nat
  absent_streak : Nat
  seq_buffer : List α
deriving DecidableEq, Repr

/-- initFSM is the reset state set in `load_model` / `start_camera`:
IDLE, both streaks 0, empty buffer. -/
def initFSM {α : Type} : FSM α :=
  { state := .idle, present_streak := 0, absent_streak := 0, seq_buffer := [] }

/-- processFSM is one step of `DeafModeWindow.process_fsm(landmarks, present)`;
the second component is the buffer handed to `classify_sequence`, when any. -/
def processFSM {α : Type} (s : FSM α) (landmarks : α) (present : Bool) :
    FSM α × Option (List α) :=
  match s.state with
  | .idle =>
    let ps := if present then s.present_streak + 1 else 0
    if START_STREAK ≤ ps then
      ({ state := .recording, present_streak := 0, absent_streak := 0,
         seq_buffer := [] }, none)
    else
      ({ state := .idle, present_streak := ps, absent_streak := 0,
         seq_buffer := s.seq_buffer }, none)
  | .recording =>
    let buf := s.seq_buffer ++ [landmarks]
    let ps := if present then s.present_streak + 1 else 0
    let as := if !present then s.absent_streak + 1 else 0
    if END_STREAK ≤ as ∨ MAX_SIGN_FRAMES ≤ buf.length then
      (initFSM, if MIN_SIGN_FRAMES ≤ buf.length then some buf else none)
    else
      ({ state := .recording, present_streak := ps, absent_streak := as,
         seq_buffer := buf }, none)

/-- runFSM feeds a list of (landmarks, present) frames to the FSM in order,
collecting every emitted buffer. -/
def runFSM {α : Type} (s : FSM α) : List (α × Bool) → FSM α × List (List α)
  | [] => (s, [])
  | f :: rest =>
    let step := processFSM s f.1 f.2
    let next := runFSM step.1 rest
    (next.1, step.2.toList ++ next.2)

/-- maxRunAux scans a presence list tracking the current streak of `true`
frames (`cur`) and the best streak seen so far (`best`). -/
def maxRunAux : List Bool → Nat → Nat → Nat
  | [], _, best => best
  | true :: rest, cur, best => maxRunAux rest (cur + 1) (max best (cur + 1))
  | false :: rest, _, best => maxRunAux rest 0 best

/-- maxPresentRun is the length of the longest run of consecutive `true`
values in a presence list. -/
def maxPresentRun (l : List Bool) : Nat := maxRunAux l 0 0

/-- bufferIdleInv is the spec invariant: the gesture buffer is empty
whenever the FSM is IDLE. -/
def bufferIdleInv {α : Type} (s : FSM α) : Prop :=
  s.state = .idle → s.seq_buffer = []

/-- FSMInv is the inductive invariant maintained by `process_fsm`: the
buffer is empty in IDLE, and strictly below the hard cap at all times. -/
def FSMInv {α : Type} (s : FSM α) : Prop :=
  (s.state = .idle → s.seq_buffer = []) ∧
  s.seq_buffer.length < MAX_SIGN_FRAMES

/-- demoStream is the concrete stream of the spec's worked segmentation
example: 24 present frames (landmark = frame index) then 6 absent frames. -/
def demoStream : List (Nat × Bool) :=
  (List.range 24).map (fun i => (i, true)) ++
    (List.range 6).map (fun i => (i + 24, false))

/-! The translation cascade, from `desktop_app/gemini_service.py`. The
remote client `client.models.generate_content` is embedded as an opaque
call function from model name to outcome: either a returned response text
or a raised exception carrying an error message. -/

/-- BackendResult is the outcome of one `generate_content` call: a
returned response text, or a raised exception with its message string. -/
inductive BackendResult where
  | success (text : PyStr)
  | error (msg : PyStr)
deriving DecidableEq, Repr

/-- Attempt records one cascade attempt (model name, outcome), mirroring
the per-attempt diagnostics printed by `try_models`. -/
structure Attempt where
  model : PyStr
  outcome : BackendResult
deriving DecidableEq, Repr

/-- MODELS is the fixed cascade order from `gemini_service.py`. -/
def MODELS : List PyStr :=
  [strC "gemini-1.5-flash", strC "gemini-2.5-flash-lite",
   strC "gemini-2.5-flash"]

/-- isQuotaError is the quota/rate-limit test of `try_models`:
`'429' in error_str or 'quota' in error_str.lower() or
'RESOURCE_EXHAUSTED' in error_str`. -/
def isQuotaError (msg : PyStr) : Bool :=
  containsSub (strC "429") msg ||
  containsSub (strC "quota") (pyLower msg) ||
  containsSub (strC "RESOURCE_EXHAUSTED") msg

/-- tryModelsGo is the loop body of `try_models` over a remaining model
list: on success return `response.text.strip()` at once; on a quota error
continue; on any other error also continue. Returns the result
(`none` models the Python `return None` after exhaustion) and the list of
attempts made, in order. -/
def tryModelsGo (call : PyStr → BackendResult) :
    List PyStr → Option PyStr × List Attempt
  | [] => (none, [])
  | m :: rest =>
    match call m with
    | .success t => (some (pyStrip t), [⟨m, .success t⟩])
    | .error msg =>
      if isQuotaError msg then
        let next := tryModelsGo call rest
        (next.1, ⟨m, .error msg⟩ :: next.2)
      else
        let next := tryModelsGo call rest
        (next.1, ⟨m, .error msg⟩ :: next.2)

/-- tryModels is `try_models`, iterating over the fixed MODELS cascade. -/
def tryModels (call : PyStr → BackendResult) : Option PyStr × List Attempt :=
  tryModelsGo call MODELS

/-- glossesToNaturalTextFallback is the local fallback of
`glosses_to_natural_text`:
`" ".join(glosses).replace("_", " ").lower()` and, when non-empty,
`result[0].upper() + result[1:]`. -/
def glossesToNaturalTextFallback (glosses : List PyStr) : PyStr :=
  let result := pyLower (pyReplaceChar 95 32 (pyJoin [32] glosses))
  match result with
  | [] => []
  | c :: rest => pyCharUpper c :: rest

/-- glossesToNaturalText is `glosses_to_natural_text`: empty input returns
the empty string at once; a truthy cascade result is returned as-is;
otherwise (cascade returned `None` or the empty string) the local fallback
runs. -/
def glossesToNaturalText (call : PyStr → BackendResult)
    (glosses : List PyStr) : PyStr :=
  if glosses = [] then []
  else
    match (tryModels call).1 with
    | some result =>
      if result = [] then glossesToNaturalTextFallback glosses else result
    | none => glossesToNaturalTextFallback glosses

/-- PUNCT is the punctuation class removed by
`re.sub(r'[¿?¡!.,;:]', '', ...)` in `natural_text_to_glosses`. -/
def PUNCT : List Nat :=
  [191, 63, 161, 33, 46, 44, 59, 58]

/-- STOP_WORDS is the fixed Spanish stop-word set of
`natural_text_to_glosses`. -/
def STOP_WORDS : List PyStr :=
  ["el", "la", "los", "las", "un", "una", "unos", "unas",
   "de", "del", "al", "a", "en", "por", "para", "con", "sin",
   "y", "o", "pero", "si", "no", "que", "como", "cuando",
   "me", "te", "se", "le", "lo", "mi", "tu", "su", "es", "son"].map strC

/-- naturalTextToGlossesFallback is the local fallback of
`natural_text_to_glosses`: remove punctuation from the lower-cased text,
split on whitespace, drop stop words and tokens of length ≤ 1, upper-case
the survivors; if nothing survives, return the single upper-cased original
text. -/
def naturalTextToGlossesFallback (text : PyStr) : List PyStr :=
  let text_clean := (pyLower text).filter (fun c => decide (c ∉ PUNCT))
  let words := ((pySplit text_clean).filter
    (fun w => decide (w ∉ STOP_WORDS) && decide (1 < w.length))).map pyUpper
  if words = [] then [pyUpper text] else words

/-- naturalTextToGlosses is `natural_text_to_glosses`: empty or
whitespace-only input returns `[]` at once; a truthy cascade result is
tokenized by `[g.strip().upper() for g in result.split() if g.strip()]`;
otherwise the local fallback runs. -/
def naturalTextToGlosses (call : PyStr → BackendResult)
    (text : PyStr) : List PyStr :=
  if text = [] ∨ pyStrip text = [] then []
  else
    match (tryModels call).1 with
    | some result =>
      if result = [] then naturalTextToGlossesFallback text
      else ((pySplit result).filter (fun g => decide (pyStrip g ≠ []))).map
        (fun g => pyUpper (pyStrip g))
    | none => naturalTextToGlossesFallback text

/-! Classification bookkeeping, from `DeafModeWindow.classify_sequence` in
`deaf_mode.py`. The neural network itself is the external classifier; the
repository code takes its probability vector, selects the top class, and
appends the gloss to the ledger, using the confidence only to pick the
diagnostic annotation. -/

/-- argmaxAux scans the tail of a probability list keeping the best value
and its index; a strictly greater value replaces the best, so the first
maximum wins, as with `np.argmax`. -/
def argmaxAux : List ℚ → Nat → ℚ → Nat → Nat
  | [], _, _, best_i => best_i
  | p :: rest, i, best, best_i =>
    if best < p then argmaxAux rest (i + 1) p i
    else argmaxAux rest (i + 1) best best_i

/-- argmax models `np.argmax` on a probability list (0 on empty input). -/
def argmax : List ℚ → Nat
  | [] => 0
  | p :: rest => argmaxAux rest 1 p 0

/-- classifySequence models the ledger-updating tail of
`classify_sequence`: pick `top_id = argmax(probs)`,
`conf = probs[top_id]`, `gloss = classes[top_id]`; the Bool records which
diagnostic branch printed (`true` when `conf < MIN_CONFIDENCE`, the
`[LOW]` annotation); the gloss is appended by `add_detected_gloss` in
either case. -/
def classifySequence (probs : List ℚ) (classes : List PyStr)
    (ledger : List PyStr) : List PyStr × Bool :=
  let top_id := argmax probs
  let conf := probs.getD top_id 0
  let gloss := classes.getD top_id []
  (ledger ++ [gloss], decide (conf < MIN_CONFIDENCE))

/-- failCall is a concrete backend environment in which every model raises
a quota error. -/
def failCall : PyStr → BackendResult := fun _ => .error (strC "429 quota")

/-! Invariant lemmas for the segmentation FSM. -/

lemma processFSM_state_inv {α : Type} (s : FSM α) (lm : α) (p : Bool)
    (h : FSMInv s) : FSMInv (processFSM s lm p).1 := by
  obtain ⟨st, ps, as, buf⟩ := s
  obtain ⟨h1, h2⟩ := h
  simp only [FSMInv] at h2 ⊢
  cases st with
  | idle =>
    have hb : buf = [] := h1 rfl
    subst hb
    simp only [processFSM]
    split_ifs <;> simp_all [MAX_SIGN_FRAMES]
  | recording =>
    simp only [processFSM]
    split_ifs with hcond <;> simp_all [initFSM, MAX_SIGN_FRAMES] <;> omega

lemma processFSM_emit_bounds {α : Type} (s : FSM α) (lm : α) (p : Bool)
    (h : FSMInv s) (b : List α) (hb : (processFSM s lm p).2 = some b) :
    MIN_SIGN_FRAMES ≤ b.length ∧ b.length ≤ MAX_SIGN_FRAMES := by
  obtain ⟨st, ps, as, buf⟩ := s
  obtain ⟨h1, h2⟩ := h
  simp only [FSMInv] at h2
  cases st with
  | idle =>
    simp only [processFSM] at hb
    split_ifs at hb
  | recording =>
    simp only [processFSM] at hb
    split_ifs at hb <;> simp at hb <;>
      (have hmin : MIN_SIGN_FRAMES ≤ (buf ++ [lm]).length := by assumption
       subst hb
       refine ⟨hmin, ?_⟩
       simp only [List.length_append, List.length_cons, List.length_nil,
         MAX_SIGN_FRAMES] at h2 ⊢
       omega)

lemma runFSM_inv_emit {α : Type} (stream : List (α × Bool)) :
    ∀ s : FSM α, FSMInv s →
      FSMInv (runFSM s stream).1 ∧
      ∀ b ∈ (runFSM s stream).2,
        MIN_SIGN_FRAMES ≤ b.length ∧ b.length ≤ MAX_SIGN_FRAMES := by
  induction stream with
  | nil => intro s h; simpa [runFSM] using h
  | cons f rest ih =>
    intro s h
    have h1 := processFSM_state_inv s f.1 f.2 h
    have h2 := ih _ h1
    simp only [runFSM]
    refine ⟨h2.1, ?_⟩
    intro b hb
    rcases List.mem_append.1 hb with hb | hb
    · have hsome : (processFSM s f.1 f.2).2 = some b := by
        cases hopt : (processFSM s f.1 f.2).2 with
        | none => rw [hopt] at hb; simp [Option.toList] at hb
        | some b' =>
          rw [hopt] at hb
          simp only [Option.toList, List.mem_singleton] at hb
          rw [hb]
      exact processFSM_emit_bounds s f.1 f.2 h b hsome
    · exact h2.2 b hb

lemma initFSM_inv {α : Type} : FSMInv (initFSM : FSM α) :=
  ⟨fun _ => rfl, by simp [initFSM, MAX_SIGN_FRAMES]⟩

lemma processFSM_bufferIdleInv {α : Type} (s : FSM α) (lm : α) (p : Bool)
    (h : bufferIdleInv s) : bufferIdleInv (processFSM s lm p).1 := by
  obtain ⟨st, ps, as, buf⟩ := s
  cases st with
  | idle =>
    have hb : buf = [] := h rfl
    subst hb
    simp only [bufferIdleInv, processFSM]
    split_ifs <;> simp
  | recording =>
    simp only [bufferIdleInv, processFSM]
    split_ifs <;> simp [initFSM]

lemma runFSM_bufferIdleInv {α : Type} (stream : List (α × Bool)) :
    ∀ s : FSM α, bufferIdleInv s → bufferIdleInv (runFSM s stream).1 := by
  induction stream with
  | nil => intro s h; simpa [runFSM] using h
  | cons f rest ih =>
    intro s h
    simp only [runFSM]
    exact ih _ (processFSM_bufferIdleInv s f.1 f.2 h)

/-! Claim theorems for the segmentation FSM (C1, C2, C6). -/

/-- C1 (counterexample): with the configured thresholds, the stream of
4 + 20 present frames followed by 6 absent frames does NOT emit a buffer
of length 24: the trigger frames are consumed in IDLE (never appended)
while the 20 remaining present frames and all 6 trailing absent frames
are appended, so the single emitted buffer has length 26, not 24. -/
theorem segmentation_example_buffer_not_24 :
    ((runFSM (initFSM : FSM Nat) demoStream).2.map List.length = [24]) =
      False :=
  eq_false (by decide)

/-- C1 (amended): feeding the segmenter 4 present frames, then 20 present
frames, then 6 absent frames, then no further frames, causes exactly one
buffer emission, and the emitted buffer has length 26. -/
theorem segmentation_example_emits_one_buffer_26 :
    (runFSM (initFSM : FSM Nat) demoStream).2.map List.length = [26] := by
  decide

/-- C2: every buffer the segmenter emits for classification has length at
least MIN_SIGN_FRAMES and at most MAX_SIGN_FRAMES, for every presence
sequence fed frame-by-frame from the initial state. -/
theorem emitted_buffer_length_bounds (stream : List (Nat × Bool))
    (buf : List Nat) (h : buf ∈ (runFSM (initFSM : FSM Nat) stream).2) :
    MIN_SIGN_FRAMES ≤ buf.length ∧ buf.length ≤ MAX_SIGN_FRAMES :=
  (runFSM_inv_emit stream initFSM initFSM_inv).2 buf h

/-- C2 (witness): the arguments of `emitted_buffer_length_bounds` are
satisfiable: the demo stream emits the concrete buffer [4, ..., 29]. -/
theorem emitted_buffer_length_bounds_witness :
    MIN_SIGN_FRAMES ≤ ((List.range 26).map (fun i => i + 4)).length ∧
      ((List.range 26).map (fun i => i + 4)).length ≤ MAX_SIGN_FRAMES :=
  emitted_buffer_length_bounds demoStream
    ((List.range 26).map (fun i => i + 4)) (by decide)

/-- C6: the segmenter preserves the invariant that the gesture buffer is
empty whenever the state machine is IDLE, across every per-frame
transition, and the invariant holds after every run from the initial
state. -/
theorem buffer_empty_while_idle :
    (∀ (s : FSM Nat) (lm : Nat) (p : Bool),
      bufferIdleInv s → bufferIdleInv (processFSM s lm p).1) ∧
    (∀ stream : List (Nat × Bool),
      bufferIdleInv (runFSM (initFSM : FSM Nat) stream).1) :=
  ⟨fun s lm p h => processFSM_bufferIdleInv s lm p h,
   fun stream => runFSM_bufferIdleInv stream initFSM (fun _ => rfl)⟩

/-! Lemmas about the longest present-streak, for C7. -/

lemma maxRunAux_best_le (l : List Bool) :
    ∀ cur best : Nat, best ≤ maxRunAux l cur best := by
  induction l with
  | nil => intro cur best; simp [maxRunAux]
  | cons b rest ih =>
    intro cur best
    cases b with
    | false => simp only [maxRunAux]; exact ih _ _
    | true =>
      simp only [maxRunAux]
      exact le_trans (le_max_left _ _) (ih _ _)

lemma maxRunAux_mono_best (l : List Bool) :
    ∀ cur b1 b2 : Nat, b1 ≤ b2 → maxRunAux l cur b1 ≤ maxRunAux l cur b2 := by
  induction l with
  | nil => intro cur b1 b2 h; simpa [maxRunAux]
  | cons b rest ih =>
    intro cur b1 b2 h
    cases b with
    | false => simp only [maxRunAux]; exact ih _ _ _ h
    | true =>
      simp only [maxRunAux]
      exact ih _ _ _ (max_le_max h le_rfl)

lemma maxRunAux_append (l1 l2 : List Bool) :
    ∀ cur best, maxRunAux l1 cur best ≤ maxRunAux (l1 ++ l2) cur best := by
  induction l1 with
  | nil =>
    intro cur best
    simpa [maxRunAux] using maxRunAux_best_le l2 cur best
  | cons b rest ih =>
    intro cur best
    cases b with
    | false => simp only [List.cons_append, maxRunAux]; exact ih _ _
    | true => simp only [List.cons_append, maxRunAux]; exact ih _ _

lemma processFSM_idle_true {α : Type} (ps as : Nat) (buf : List α) (lm : α)
    (h : ¬ START_STREAK ≤ ps + 1) :
    processFSM (⟨.idle, ps, as, buf⟩ : FSM α) lm true =
      ({ state := .idle, present_streak := ps + 1, absent_streak := 0,
         seq_buffer := buf }, none) := by
  simp [processFSM, h]

lemma processFSM_idle_false {α : Type} (ps as : Nat) (buf : List α) (lm : α) :
    processFSM (⟨.idle, ps, as, buf⟩ : FSM α) lm false =
      ({ state := .idle, present_streak := 0, absent_streak := 0,
         seq_buffer := buf }, none) := by
  simp [processFSM, START_STREAK]

lemma runFSM_idle_of_low_run {α : Type} (stream : List (α × Bool)) :
    ∀ s : FSM α, s.state = .idle →
      maxRunAux (stream.map Prod.snd) s.present_streak s.present_streak <
        START_STREAK →
      (runFSM s stream).1.state = .idle ∧ (runFSM s stream).2 = [] := by
  induction stream with
  | nil => intro s hs _; simpa [runFSM]
  | cons f rest ih =>
    intro s hs hrun
    obtain ⟨st, ps, as, buf⟩ := s
    obtain ⟨lm, p⟩ := f
    simp only at hs
    subst hs
    cases p with
    | true =>
      simp only [List.map_cons, maxRunAux] at hrun
      have hmax : max ps (ps + 1) = ps + 1 := by omega
      rw [hmax] at hrun
      have hps1 : ps + 1 < START_STREAK :=
        lt_of_le_of_lt (maxRunAux_best_le _ _ _) hrun
      simp only [runFSM, processFSM_idle_true ps as buf lm (by omega),
        Option.toList, List.nil_append]
      exact ih _ rfl hrun
    | false =>
      simp only [List.map_cons, maxRunAux] at hrun
      have hrun0 : maxRunAux (rest.map Prod.snd) 0 0 < START_STREAK :=
        lt_of_le_of_lt (maxRunAux_mono_best _ 0 0 ps (Nat.zero_le ps)) hrun
      simp only [runFSM, processFSM_idle_false ps as buf lm,
        Option.toList, List.nil_append]
      exact ih _ rfl hrun0

/-- C7: for every presence sequence that never contains START_STREAK
consecutive present frames, the segmenter never emits a buffer, and after
every prefix of the stream the state machine is in the IDLE state. -/
theorem no_emission_without_start_streak (stream : List (Nat × Bool))
    (h : maxPresentRun (stream.map Prod.snd) < START_STREAK) :
    ∀ pre suf : List (Nat × Bool), stream = pre ++ suf →
      (runFSM (initFSM : FSM Nat) pre).1.state = .idle ∧
      (runFSM (initFSM : FSM Nat) pre).2 = [] := by
  intro pre suf hsplit
  subst hsplit
  have hpre : maxPresentRun (pre.map Prod.snd) < START_STREAK :=
    lt_of_le_of_lt
      (by
        simpa [maxPresentRun, List.map_append] using
          maxRunAux_append (pre.map Prod.snd) (suf.map Prod.snd) 0 0) h
  exact runFSM_idle_of_low_run pre initFSM rfl
    (by simpa [maxPresentRun, initFSM] using hpre)

/-- lowRunStream is a concrete stream whose longest present run is 3,
below START_STREAK = 4. -/
def lowRunStream : List (Nat × Bool) :=
  [(0, true), (1, true), (2, true), (3, false), (4, true), (5, true)]

/-- C7 (witness): the no-emission theorem applies to the concrete stream
`lowRunStream`. -/
theorem no_emission_without_start_streak_witness :
    maxPresentRun (lowRunStream.map Prod.snd) < START_STREAK ∧
      ((runFSM (initFSM : FSM Nat) lowRunStream).1.state = .idle ∧
        (runFSM (initFSM : FSM Nat) lowRunStream).2 = []) :=
  ⟨by decide,
   no_emission_without_start_streak lowRunStream (by decide) lowRunStream []
     (by simp)⟩

/-- C6 (witness): the invariant-preservation theorem applies at a
concrete state and a concrete stream. -/
theorem buffer_empty_while_idle_witness :
    bufferIdleInv (processFSM (initFSM : FSM Nat) 0 true).1 ∧
      bufferIdleInv (runFSM (initFSM : FSM Nat) demoStream).1 :=
  ⟨buffer_empty_while_idle.1 initFSM 0 true (fun _ => rfl),
   buffer_empty_while_idle.2 demoStream⟩

example : (runFSM (initFSM : FSM Nat) demoStream).2.map List.length = [26] := by
  decide

/-! Lemmas about the cascade loop `tryModelsGo`. -/

lemma tryModelsGo_take (call : PyStr → BackendResult) :
    ∀ ms : List PyStr,
      ∃ k, (tryModelsGo call ms).2.map Attempt.model = ms.take k := by
  intro ms
  induction ms with
  | nil => exact ⟨0, by simp [tryModelsGo]⟩
  | cons m rest ih =>
    cases hc : call m with
    | success t => exact ⟨1, by simp [tryModelsGo, hc]⟩
    | error msg =>
      obtain ⟨k, hk⟩ := ih
      exact ⟨k + 1, by simp [tryModelsGo, hc, ite_self, hk]⟩

lemma tryModelsGo_success (call : PyStr → BackendResult) :
    ∀ (ms : List PyStr) (t : PyStr), (tryModelsGo call ms).1 = some t →
      ∃ pre a txt, (tryModelsGo call ms).2 = pre ++ [a] ∧
        a.outcome = .success txt ∧ t = pyStrip txt ∧
        ∀ a' ∈ pre, ∃ msg, a'.outcome = .error msg := by
  intro ms
  induction ms with
  | nil => intro t ht; simp [tryModelsGo] at ht
  | cons m rest ih =>
    intro t ht
    cases hc : call m with
    | success t0 =>
      simp only [tryModelsGo, hc] at ht ⊢
      refine ⟨[], ⟨m, .success t0⟩, t0, by simp, rfl, ?_, by simp⟩
      simpa using ht.symm
    | error msg =>
      simp only [tryModelsGo, hc, ite_self] at ht ⊢
      obtain ⟨pre, a, txt, hsplit, hout, htxt, hpre⟩ := ih t ht
      refine ⟨⟨m, .error msg⟩ :: pre, a, txt, by simp [hsplit], hout, htxt, ?_⟩
      intro a' ha'
      rcases List.mem_cons.1 ha' with rfl | hmem
      · exact ⟨msg, rfl⟩
      · exact hpre a' hmem

lemma tryModelsGo_none (call : PyStr → BackendResult) :
    ∀ ms : List PyStr, (tryModelsGo call ms).1 = none →
      (tryModelsGo call ms).2.map Attempt.model = ms ∧
      ∀ a ∈ (tryModelsGo call ms).2, ∃ msg, a.outcome = .error msg := by
  intro ms
  induction ms with
  | nil => intro _; simp [tryModelsGo]
  | cons m rest ih =>
    intro ht
    cases hc : call m with
    | success t0 => simp [tryModelsGo, hc] at ht
    | error msg =>
      simp only [tryModelsGo, hc, ite_self] at ht ⊢
      obtain ⟨hmap, herr⟩ := ih ht
      refine ⟨by simp [hmap], ?_⟩
      intro a ha
      rcases List.mem_cons.1 ha with rfl | hmem
      · exact ⟨msg, rfl⟩
      · exact herr a hmem

lemma tryModelsGo_all_error (call : PyStr → BackendResult) :
    ∀ ms : List PyStr, (∀ m ∈ ms, ∃ msg, call m = .error msg) →
      (tryModelsGo call ms).1 = none := by
  intro ms
  induction ms with
  | nil => intro _; simp [tryModelsGo]
  | cons m rest ih =>
    intro h
    obtain ⟨msg, hmsg⟩ := h m (List.mem_cons_self m rest)
    simp only [tryModelsGo, hmsg, ite_self]
    exact ih (fun m' hm' => h m' (List.mem_cons_of_mem m hm'))

lemma tryModelsGo_success_at (call : PyStr → BackendResult) :
    ∀ (ms : List PyStr) (k : Nat) (t : PyStr), k < ms.length →
      call (ms.getD k []) = .success t →
      (∀ i, i < k → ∃ msg, call (ms.getD i []) = .error msg) →
      (tryModelsGo call ms).1 = some (pyStrip t) ∧
      (tryModelsGo call ms).2.map Attempt.model = ms.take (k + 1) := by
  intro ms
  induction ms with
  | nil => intro k t hk; simp at hk
  | cons m rest ih =>
    intro k t hk hs he
    cases k with
    | zero =>
      simp only [List.getD_cons_zero] at hs
      simp [tryModelsGo, hs]
    | succ k0 =>
      obtain ⟨msg, hmsg⟩ := he 0 (Nat.succ_pos k0)
      simp only [List.getD_cons_zero] at hmsg
      simp only [List.getD_cons_succ] at hs
      have hrest := ih k0 t (by simpa using hk) hs (fun i hi => by
        have hh := he (i + 1) (by omega)
        simpa [List.getD_cons_succ] using hh)
      simp [tryModelsGo, hmsg, ite_self, hrest.1, hrest.2]

/-! Claim theorems for the translation cascade (C3, C4, C5). -/

/-- C3: in a single translate call the cascade tries the backends in the
fixed MODELS order (the attempt trace is a duplicate-free prefix of
MODELS, so each backend is tried at most once), every failed attempt —
quota or otherwise — is followed by the next backend (all attempts before
the final one are errors, and total failure means every backend was
attempted), and on success the call returns the stripped text of the
final, successful attempt, with no later backend invoked. -/
theorem cascade_order_and_advance (call : PyStr → BackendResult) :
    (∃ k, (tryModels call).2.map Attempt.model = MODELS.take k) ∧
    ((tryModels call).2.map Attempt.model).Nodup ∧
    (∀ t, (tryModels call).1 = some t →
      ∃ pre a txt, (tryModels call).2 = pre ++ [a] ∧
        a.outcome = .success txt ∧ t = pyStrip txt ∧
        ∀ a' ∈ pre, ∃ msg, a'.outcome = .error msg) ∧
    ((tryModels call).1 = none →
      (tryModels call).2.map Attempt.model = MODELS ∧
      ∀ a ∈ (tryModels call).2, ∃ msg, a.outcome = .error msg) := by
  obtain ⟨k, hk⟩ := tryModelsGo_take call MODELS
  refine ⟨⟨k, hk⟩, ?_, ?_, ?_⟩
  · rw [tryModels, hk]
    exact (List.take_sublist k MODELS).nodup (by decide)
  · exact tryModelsGo_success call MODELS
  · exact tryModelsGo_none call MODELS

/-- demoCall3 is a concrete backend environment: the first model raises a
generic error, every other model succeeds with text " Hola ". -/
def demoCall3 : PyStr → BackendResult := fun m =>
  if m = strC "gemini-1.5-flash" then .error (strC "boom")
  else .success (strC " Hola ")

/-- C3 (witness): the cascade-ordering theorem applies at the concrete
environment demoCall3. -/
theorem cascade_order_and_advance_witness :
    (∃ k, (tryModels demoCall3).2.map Attempt.model = MODELS.take k) ∧
    ((tryModels demoCall3).2.map Attempt.model).Nodup ∧
    (∀ t, (tryModels demoCall3).1 = some t →
      ∃ pre a txt, (tryModels demoCall3).2 = pre ++ [a] ∧
        a.outcome = .success txt ∧ t = pyStrip txt ∧
        ∀ a' ∈ pre, ∃ msg, a'.outcome = .error msg) ∧
    ((tryModels demoCall3).1 = none →
      (tryModels demoCall3).2.map Attempt.model = MODELS ∧
      ∀ a ∈ (tryModels demoCall3).2, ∃ msg, a.outcome = .error msg) :=
  cascade_order_and_advance demoCall3

lemma pyJoin_ne_nil (sep : PyStr) (hsep : sep ≠ []) :
    ∀ glosses : List PyStr, glosses ≠ [] → glosses ≠ [[]] →
      pyJoin sep glosses ≠ [] := by
  intro glosses h1 h2
  match glosses with
  | [g] =>
    have hg : g ≠ [] := by
      intro h0
      exact h2 (by rw [h0])
    simpa [pyJoin] using hg
  | g1 :: g2 :: rest =>
    simp [pyJoin, hsep]

lemma glossesFallback_ne_nil (glosses : List PyStr)
    (h1 : glosses ≠ []) (h2 : glosses ≠ [[]]) :
    glossesToNaturalTextFallback glosses ≠ [] := by
  have hj : pyJoin [32] glosses ≠ [] :=
    pyJoin_ne_nil [32] (by simp) glosses h1 h2
  have hres : pyLower (pyReplaceChar 95 32 (pyJoin [32] glosses)) ≠ [] := by
    simpa [pyLower, pyReplaceChar] using hj
  unfold glossesToNaturalTextFallback
  cases hX : pyLower (pyReplaceChar 95 32 (pyJoin [32] glosses)) with
  | nil => exact absurd hX hres
  | cons c rest => simp [hX]

lemma glossesToNaturalText_all_fail (call : PyStr → BackendResult)
    (hfail : ∀ m, ∃ msg, call m = .error msg) (glosses : List PyStr)
    (hne : glosses ≠ []) :
    glossesToNaturalText call glosses = glossesToNaturalTextFallback glosses := by
  have hnone : (tryModels call).1 = none :=
    tryModelsGo_all_error call MODELS (fun m _ => hfail m)
  unfold glossesToNaturalText
  rw [if_neg hne, hnone]

/-- C4 (counterexample): all backends failing on the non-empty gloss list
containing one empty gloss yields the empty string, not a non-empty
result, so the universally quantified non-emptiness part of the claim is
false. -/
theorem all_fail_singleton_empty_gloss :
    glossesToNaturalText failCall [([] : PyStr)] = [] ∧
      (([([] : PyStr)] : List PyStr) = []) = False :=
  ⟨by decide, eq_false (by decide)⟩

/-- C4 (amended): if every remote backend fails, glosses_to_natural_text
returns the deterministic local fallback; for ["HOLA","MUNDO"] it returns
exactly "Hola mundo", and for every non-empty gloss list other than the
singleton list containing the empty gloss the result is non-empty. -/
theorem all_fail_uses_local_fallback (call : PyStr → BackendResult)
    (hfail : ∀ m, ∃ msg, call m = .error msg) :
    glossesToNaturalText call [strC "HOLA", strC "MUNDO"] =
      strC "Hola mundo" ∧
    ∀ glosses : List PyStr, glosses ≠ [] → glosses ≠ [[]] →
      glossesToNaturalText call glosses =
        glossesToNaturalTextFallback glosses ∧
      glossesToNaturalText call glosses ≠ [] := by
  constructor
  · rw [glossesToNaturalText_all_fail call hfail _ (by simp)]
    decide
  · intro glosses h1 h2
    rw [glossesToNaturalText_all_fail call hfail glosses h1]
    exact ⟨rfl, glossesFallback_ne_nil glosses h1 h2⟩

/-- C4 (witness): the all-backends-fail theorem applies at the concrete
environment failCall. -/
theorem all_fail_uses_local_fallback_witness :
    glossesToNaturalText failCall [strC "HOLA", strC "MUNDO"] =
      strC "Hola mundo" ∧
    ∀ glosses : List PyStr, glosses ≠ [] → glosses ≠ [[]] →
      glossesToNaturalText failCall glosses =
        glossesToNaturalTextFallback glosses ∧
      glossesToNaturalText failCall glosses ≠ [] :=
  all_fail_uses_local_fallback failCall (fun _ => ⟨strC "429 quota", rfl⟩)

/-- C5: if the backend at position k returns without raising — after
errors at every earlier position — try_models returns the stripped
response text at once and attempts exactly the first k+1 backends, even
when the stripped text is empty; glosses_to_natural_text then treats that
empty string as total cascade failure and uses the local fallback, so an
empty backend response silently skips all lower-priority backends. -/
theorem empty_success_skips_rest (call : PyStr → BackendResult) (k : Nat)
    (t : PyStr) (hk : k < MODELS.length)
    (hs : call (MODELS.getD k []) = .success t)
    (he : ∀ i, i < k → ∃ msg, call (MODELS.getD i []) = .error msg) :
    (tryModels call).1 = some (pyStrip t) ∧
    (tryModels call).2.map Attempt.model = MODELS.take (k + 1) ∧
    (pyStrip t = [] → ∀ glosses : List PyStr, glosses ≠ [] →
      glossesToNaturalText call glosses =
        glossesToNaturalTextFallback glosses) := by
  have h := tryModelsGo_success_at call MODELS k t hk hs he
  refine ⟨h.1, h.2, ?_⟩
  intro hts glosses hne
  unfold glossesToNaturalText
  rw [if_neg hne, show (tryModels call).1 = some [] from hts ▸ h.1]
  simp

/-- demoCall5 is a concrete backend environment: the first model returns a
whitespace-only response, every other model raises. -/
def demoCall5 : PyStr → BackendResult := fun m =>
  if m = strC "gemini-1.5-flash" then .success (strC "  ")
  else .error (strC "nope")

/-- C5 (witness): the empty-success theorem applies at the concrete
environment demoCall5 with the first backend succeeding. -/
theorem empty_success_skips_rest_witness :
    (tryModels demoCall5).1 = some (pyStrip (strC "  ")) ∧
    (tryModels demoCall5).2.map Attempt.model = MODELS.take 1 ∧
    (pyStrip (strC "  ") = [] → ∀ glosses : List PyStr, glosses ≠ [] →
      glossesToNaturalText demoCall5 glosses =
        glossesToNaturalTextFallback glosses) :=
  empty_success_skips_rest demoCall5 0 (strC "  ") (by decide) (by decide)
    (fun i hi => absurd hi (Nat.not_lt_zero i))

/-! Lemmas about tokens and case mapping, for C8 and C10. -/

lemma pyCharUpper_idem (c : Nat) :
    pyCharUpper (pyCharUpper c) = pyCharUpper c := by
  unfold pyCharUpper
  split_ifs <;> omega

lemma pyUpper_idem (s : PyStr) : pyUpper (pyUpper s) = pyUpper s := by
  unfold pyUpper
  rw [List.map_map]
  exact List.map_congr_left (fun c _ => pyCharUpper_idem c)

lemma pyUpper_ne_nil (s : PyStr) (h : s ≠ []) : pyUpper s ≠ [] := by
  simpa [pyUpper, List.map_eq_nil_iff] using h

lemma pySplitAux_tokens :
    ∀ (s cur : List Nat), (∀ c ∈ cur, isSpace c = false) →
      ∀ t ∈ pySplitAux s cur, t ≠ [] ∧ ∀ c ∈ t, isSpace c = false := by
  intro s
  induction s with
  | nil =>
    intro cur hcur t ht
    simp only [pySplitAux] at ht
    split at ht
    · simp at ht
    · rename_i hcurne
      simp only [List.mem_singleton] at ht
      subst ht
      refine ⟨by simpa using hcurne, ?_⟩
      intro c hc
      exact hcur c (by simpa using hc)
  | cons c0 rest ih =>
    intro cur hcur t ht
    simp only [pySplitAux] at ht
    split at ht
    · split at ht
      · exact ih [] (by simp) t ht
      · rename_i hcurne
        rcases List.mem_cons.1 ht with rfl | hmem
        · refine ⟨by simpa using hcurne, ?_⟩
          intro c hc
          exact hcur c (by simpa using hc)
        · exact ih [] (by simp) t hmem
    · rename_i hc0
      refine ih (c0 :: cur) ?_ t ht
      intro c hcmem
      rcases List.mem_cons.1 hcmem with rfl | hmem
      · simpa using hc0
      · exact hcur c hmem

lemma pySplit_tokens (s : PyStr) :
    ∀ t ∈ pySplit s, t ≠ [] ∧ ∀ c ∈ t, isSpace c = false :=
  pySplitAux_tokens s [] (by simp)

lemma dropWhile_of_no_space (l : List Nat)
    (h : ∀ c ∈ l, isSpace c = false) : l.dropWhile isSpace = l := by
  cases l with
  | nil => rfl
  | cons c rest =>
    rw [List.dropWhile_cons, h c (List.mem_cons_self c rest)]
    simp

lemma pyStrip_of_no_space (l : List Nat)
    (h : ∀ c ∈ l, isSpace c = false) : pyStrip l = l := by
  unfold pyStrip
  rw [dropWhile_of_no_space l h,
    dropWhile_of_no_space l.reverse (fun c hc => h c (List.mem_reverse.1 hc)),
    List.reverse_reverse]

/-- C8: the text-to-glosses local fallback — strip punctuation,
lower-case, split on whitespace, drop stop words and tokens of length
at most 1, upper-case the rest, and fall back to the single upper-cased
original input when nothing survives — returns a non-empty gloss list for
every non-empty input text. -/
theorem text_fallback_nonempty (text : PyStr) (_h : text ≠ []) :
    naturalTextToGlossesFallback text ≠ [] := by
  simp only [naturalTextToGlossesFallback]
  split
  · simp
  · rename_i hw
    exact hw

/-- C8 (witness): the fallback non-emptiness theorem applies at the
concrete input "hola". -/
theorem text_fallback_nonempty_witness :
    strC "hola" ≠ [] ∧ naturalTextToGlossesFallback (strC "hola") ≠ [] :=
  ⟨by decide, text_fallback_nonempty (strC "hola") (by decide)⟩

/-- C9: the classification bookkeeping appends the recognized gloss to
the ledger even when its confidence is strictly below MIN_CONFIDENCE,
where the confidence only selects the low-quality diagnostic flag. -/
theorem low_confidence_still_appended (probs : List ℚ)
    (classes ledger : List PyStr)
    (h : probs.getD (argmax probs) 0 < MIN_CONFIDENCE) :
    (classifySequence probs classes ledger).1 =
      ledger ++ [classes.getD (argmax probs) []] ∧
    (classifySequence probs classes ledger).2 = true := by
  refine ⟨rfl, ?_⟩
  simpa [classifySequence] using h

/-- C9 (witness): the low-confidence theorem applies at a concrete
probability vector whose top confidence 3/10 is below 4/10. -/
theorem low_confidence_still_appended_witness :
    [(3 : ℚ)/10].getD (argmax [(3 : ℚ)/10]) 0 < MIN_CONFIDENCE ∧
      ((classifySequence [(3 : ℚ)/10] [strC "HOLA"] []).1 =
        [] ++ [[strC "HOLA"].getD (argmax [(3 : ℚ)/10]) []] ∧
       (classifySequence [(3 : ℚ)/10] [strC "HOLA"] []).2 = true) :=
  ⟨by norm_num [argmax, argmaxAux, MIN_CONFIDENCE],
   low_confidence_still_appended [(3 : ℚ)/10] [strC "HOLA"] []
     (by norm_num [argmax, argmaxAux, MIN_CONFIDENCE])⟩

lemma fallback_gloss_spec (text g : PyStr) (htext : text ≠ [])
    (h : g ∈ naturalTextToGlossesFallback text) :
    g ≠ [] ∧ pyUpper g = g := by
  simp only [naturalTextToGlossesFallback] at h
  split at h
  · simp only [List.mem_singleton] at h
    subst h
    exact ⟨pyUpper_ne_nil text htext, pyUpper_idem text⟩
  · rcases List.mem_map.1 h with ⟨w, hw, rfl⟩
    rcases List.mem_filter.1 hw with ⟨_, hcond⟩
    simp only [Bool.and_eq_true, decide_eq_true_eq] at hcond
    have hwne : w ≠ [] := by
      intro h0
      rw [h0] at hcond
      simp at hcond
    exact ⟨pyUpper_ne_nil w hwne, pyUpper_idem w⟩

/-- C10: every string in the list returned by natural_text_to_glosses —
whether produced by a successful backend or by the local fallback — is
non-empty and equals its own upper-casing. -/
theorem glosses_nonempty_uppercase (call : PyStr → BackendResult)
    (text g : PyStr) (h : g ∈ naturalTextToGlosses call text) :
    g ≠ [] ∧ pyUpper g = g := by
  simp only [naturalTextToGlosses] at h
  split at h
  · simp at h
  · rename_i hne
    have htext : text ≠ [] := fun h0 => hne (Or.inl h0)
    split at h
    · split at h
      · exact fallback_gloss_spec text g htext h
      · rcases List.mem_map.1 h with ⟨g0, hg0, rfl⟩
        rcases List.mem_filter.1 hg0 with ⟨_, hg0ne⟩
        have hsne : pyStrip g0 ≠ [] := of_decide_eq_true hg0ne
        exact ⟨pyUpper_ne_nil _ hsne, pyUpper_idem _⟩
    · exact fallback_gloss_spec text g htext h

/-- C10 (witness): the gloss-shape theorem applies at the concrete input
"hola" under the all-fail environment, whose output contains "HOLA". -/
theorem glosses_nonempty_uppercase_witness :
    strC "HOLA" ≠ [] ∧ pyUpper (strC "HOLA") = strC "HOLA" :=
  glosses_nonempty_uppercase failCall (strC "hola") (strC "HOLA") (by decide)

example :
    glossesToNaturalText failCall [strC "HOLA", strC "MUNDO"] =
      strC "Hola mundo" := by decide

example : glossesToNaturalText failCall [([] : PyStr)] = [] := by decide

example :
    naturalTextToGlossesFallback (strC "¡Hola, el mundo!") =
      [strC "HOLA", strC "MUNDO"] := by decide

example :
    naturalTextToGlosses failCall (strC "la de a") = [strC "LA DE A"] := by
  decide

example : pyStrip (strC "  hola ") = strC "hola" := by decide

example : pySplit (strC " hola  mundo ") = [strC "hola", strC "mundo"] := by
  decide
